import Mathlib

/-!
Verification development for the gossip daemon of a Lightning-style node
(gossipd.c). The definitions below are a shallow embedding of the
peer-facing query handlers, the timestamp filter, the broadcast cursor,
the scid compression envelope, the local-channel update timestamp rule,
the peer-destruction channel disabling and the control ping path. The
theorems settle the specification claims about those functions.

Machine integers are modelled as naturals with explicit reduction modulo
4294967296 where the C code computes in 32 bits. Byte strings are lists of
naturals below 256. The zlib library is external to the repository, so the
compressor is an explicit parameter: a function giving the compressed bytes
of a body; compress2 with a destination buffer of exactly the body length
succeeds exactly when that output fits in the buffer.
-/

namespace Gossipd

/-- A short channel id is the 64-bit (block, tx index, output) triple
ordered as the integer; the block height is its top 24 bits
(short_channel_id_blocknum is a shift by 40). -/
def blocknum (scid : ℕ) : ℕ := scid / 2 ^ 40

/-- Big-endian 8-byte serialisation of one short channel id
(towire_short_channel_id). -/
def toBE8 (scid : ℕ) : List ℕ :=
  [scid / 2 ^ 56 % 256, scid / 2 ^ 48 % 256, scid / 2 ^ 40 % 256,
   scid / 2 ^ 32 % 256, scid / 2 ^ 24 % 256, scid / 2 ^ 16 % 256,
   scid / 2 ^ 8 % 256, scid % 256]

/-- The raw scid body built by repeated encode_add_short_channel_id: 8
big-endian bytes per scid, in list order (the envelope tag byte is kept
separately). -/
def rawBody (scids : List ℕ) : List ℕ := scids.flatMap toBE8

def SHORTIDS_UNCOMPRESSED : ℕ := 0

def SHORTIDS_ZLIB : ℕ := 1

/-- zencode_scids: compress2 is handed a destination buffer of exactly the
body length, so it succeeds exactly when the zlib output fits in that many
bytes; on success the compressed bytes are returned, otherwise none. The
compressor zl is the external zlib library viewed as a function from body
bytes to output bytes. -/
def zencode_scids (zl : List ℕ → List ℕ) (body : List ℕ) : Option (List ℕ) :=
  if (zl body).length ≤ body.length then some (zl body) else none

/-- encode_short_channel_ids_end: attempt zlib compression of the body; on
success keep tag SHORTIDS_ZLIB with the compressed body, otherwise switch
the tag to SHORTIDS_UNCOMPRESSED and keep the raw body; in either case fail
(none) when tag byte plus body exceed max_bytes. The DEVELOPER
max_scids_encode_bytes knob stays at its default (no extra limit). Returns
the envelope tag and the body that follows it. -/
def encode_short_channel_ids_end (zl : List ℕ → List ℕ) (body : List ℕ)
    (max_bytes : ℕ) : Option (ℕ × List ℕ) :=
  match zencode_scids zl body with
  | some z => if 1 + z.length ≤ max_bytes then some (SHORTIDS_ZLIB, z) else none
  | none =>
      if 1 + body.length ≤ max_bytes then some (SHORTIDS_UNCOMPRESSED, body)
      else none

/-- The channel-map walk of queue_channel_ranges: the map is the ascending
list of known scids (uintmap iteration order); the walk starts just below
the scid (block, 0, 0) for block = first, substituting block 1 when
first = 0, and stops at the first scid whose block reaches first + num. -/
def collectScids (chanmap : List ℕ) (first num : ℕ) : List ℕ :=
  (chanmap.dropWhile fun e =>
      decide (e < (if first = 0 then 1 else first) * 2 ^ 40)).takeWhile
    fun e => decide (blocknum e < first + num)

/-- queue_channel_ranges: collect the scids of the block window; if their
encoding fits 65535 - 2 - 43 = 65490 bytes emit one reply_channel_range,
otherwise split the window in half and queue both halves; a single block
that does not fit is abandoned (status_broken path). Each emitted reply is
recorded as (first_blocknum, number_of_blocks, scids). The structural fuel
only bounds the recursion depth; num + 1 always suffices. -/
def queue_channel_ranges (zl : List ℕ → List ℕ) (chanmap : List ℕ) :
    ℕ → ℕ → ℕ → List (ℕ × ℕ × List ℕ)
  | 0, _, _ => []
  | fuel + 1, first, num =>
    match encode_short_channel_ids_end zl
        (rawBody (collectScids chanmap first num)) 65490 with
    | some _ => [(first, num, collectScids chanmap first num)]
    | none =>
      if num ≤ 1 then []
      else
        queue_channel_ranges zl chanmap fuel first (num / 2) ++
          queue_channel_ranges zl chanmap fuel (first + num / 2) (num - num / 2)

/-- The scids carried across a sequence of reply_channel_range messages,
concatenated in emission order. -/
def unionScids (replies : List (ℕ × ℕ × List ℕ)) : List ℕ :=
  replies.flatMap fun r => r.2.2

/-- handle_query_channel_range: a foreign chain is silently ignored; the u32
overflow test first + num < first (computed modulo 2^32) is a peer error;
otherwise the reply work is queued. Returns none when the query was not
accepted. -/
def handle_query_channel_range (zl : List ℕ → List ℕ) (chainHash : ℕ)
    (chanmap : List ℕ) (chain first num : ℕ) :
    Option (List (ℕ × ℕ × List ℕ)) :=
  if chain ≠ chainHash then none
  else if (first + num) % 4294967296 < first then none
  else some (queue_channel_ranges zl chanmap (num + 1) first num)

/-- Timestamp selection of update_local_channel: take the current clock
value; if the half-channel is defined and the clock equals its
last_timestamp, add one (the source only guards against sending a duplicate
timestamp). -/
def update_local_channel_timestamp (now last_timestamp : ℕ)
    (halfchan_defined : Bool) : ℕ :=
  if halfchan_defined = true ∧ now = last_timestamp then now + 1 else now

/-- A channel of the graph as this engine sees it: its scid, whether a
channel_announcement is stored, which half channel_updates are present, the
two endpoint node ids, and the engine-owned local_disabled flag. -/
structure Chan where
  scid : ℕ
  announced : Bool
  upd0 : Bool
  upd1 : Bool
  node0 : ℕ
  node1 : ℕ
  local_disabled : Bool
deriving DecidableEq

/-- other_node of the routing core: the endpoint of a channel that is not
the given node (the first endpoint when the given node is the second). -/
def other_node_id (c : Chan) (nid : ℕ) : ℕ :=
  if c.node0 = nid then c.node1 else c.node0

/-- peer_disable_channels: for every channel incident to the destroyed peer
whose other endpoint is our own id, set local_disabled. destroy_peer calls
this with the channel list of the peer node when the peer is known to the
graph; a peer absent from the graph has no incident channels, so acting on
the whole channel list guarded by an incidence test has the same effect. -/
def peer_disable_channels (selfId peerId : ℕ) (chans : List Chan) :
    List Chan :=
  chans.map fun c =>
    if (c.node0 = peerId ∨ c.node1 = peerId) ∧ other_node_id c peerId = selfId
    then { c with local_disabled := true } else c

/-- ping_req, restricted to a connected peer: after queueing the ping, if
num_pong_bytes is at least 65532 no pong is expected, so the control
connection is answered immediately with (sent = true, length 0) and
num_pings_outstanding is untouched; otherwise num_pings_outstanding is
incremented and the control reply waits for the pong. Returns the new
counter and the immediate control reply, if any. -/
def ping_req (num_pong_bytes num_pings_outstanding : ℕ) :
    ℕ × Option (Bool × ℕ) :=
  if 65532 ≤ num_pong_bytes then (num_pings_outstanding, some (true, 0))
  else (num_pings_outstanding + 1, none)

/-- The peer fields touched by the timestamp filter and the broadcast
pacer. -/
structure PeerFilter where
  gossip_timestamp_min : ℕ
  gossip_timestamp_max : ℕ
  broadcast_index : ℕ
deriving DecidableEq

/-- A gossip_timestamp_filter wire message as the handler sees it: whether
the frame parsed, the chain hash, and the two u32 fields. -/
structure GTFMsg where
  parseOk : Bool
  chain : ℕ
  first_timestamp : ℕ
  timestamp_range : ℕ
deriving DecidableEq

/-- handle_gossip_timestamp_filter: a bad frame gets an error and changes
nothing; a foreign chain is silently ignored; otherwise the window becomes
[first_timestamp, first_timestamp + timestamp_range - 1] computed in u32
arithmetic, the upper bound saturating to 4294967295 whenever the computed
value falls below the lower bound, and broadcast_index is reset to 0. -/
def handle_gossip_timestamp_filter (chainHash : ℕ) (p : PeerFilter)
    (m : GTFMsg) : PeerFilter :=
  if m.parseOk = false then p
  else if m.chain ≠ chainHash then p
  else
    let tmax := (m.first_timestamp + m.timestamp_range + 4294967295) % 4294967296
    { gossip_timestamp_min := m.first_timestamp
      gossip_timestamp_max :=
        if tmax < m.first_timestamp then 4294967295 else tmax
      broadcast_index := 0 }

/-- An entry of the broadcast log: its monotone index and timestamp. -/
structure BcastEntry where
  index : ℕ
  timestamp : ℕ
deriving DecidableEq

/-- Modelled from the spec: next_broadcast lives in the routing core, which
is not among the sources here; per the specification it returns the next
log entry at or past the cursor whose timestamp lies inside
[ts_min, ts_max] and advances the cursor past it. -/
def next_broadcast (log : List BcastEntry) (ts_min ts_max cursor : ℕ) :
    Option (BcastEntry × ℕ) :=
  match log.find? fun e =>
      decide (cursor ≤ e.index) && decide (ts_min ≤ e.timestamp) &&
        decide (e.timestamp ≤ ts_max) with
  | some e => some (e, e.index + 1)
  | none => none

/-- maybe_queue_gossip: yield while the paced-out timer is armed; otherwise
pull the next broadcast for this peer window, advancing the cursor; when the
log is drained the timer is re-armed (the timer itself is not part of this
state). Returns the peer and the emitted entry, if any. -/
def maybe_queue_gossip (log : List BcastEntry) (timer_armed : Bool)
    (p : PeerFilter) : PeerFilter × Option BcastEntry :=
  if timer_armed then (p, none)
  else
    match next_broadcast log p.gossip_timestamp_min p.gossip_timestamp_max
        p.broadcast_index with
    | some ec => ({ p with broadcast_index := ec.2 }, some ec.1)
    | none => (p, none)

/-- The events after session initialisation that touch the PeerFilter
fields: an inbound gossip_timestamp_filter and a wake of the broadcast
pacer. Every other inbound wire message leaves these fields untouched. -/
inductive PeerEvent where
  | timestampFilter (m : GTFMsg)
  | gossipWake (timer_armed : Bool)

def peerEventStep (chainHash : ℕ) (log : List BcastEntry) (e : PeerEvent)
    (p : PeerFilter) : PeerFilter :=
  match e with
  | .timestampFilter m => handle_gossip_timestamp_filter chainHash p m
  | .gossipWake armed => (maybe_queue_gossip log armed p).1

/-- The outbound gossip messages relevant to an inbound scid query: the
stored channel_announcement of a channel, a stored half channel_update, a
stored node_announcement, and the terminating reply_short_channel_ids_end
with its complete flag. -/
inductive GMsg where
  | chanAnn (scid : ℕ)
  | chanUpd (scid : ℕ) (dir : ℕ)
  | nodeAnn (nid : ℕ)
  | replyEnd (complete : Bool)
deriving DecidableEq

/-- A node of the routing state: node_announcement_index stays 0 until a
node_announcement has been accepted for it. -/
structure NodeInfo where
  nid : ℕ
  node_announcement_index : ℕ
deriving DecidableEq

/-- The routing state as consumed by the query handlers. -/
structure RState where
  chans : List Chan
  nodes : List NodeInfo
deriving DecidableEq

def get_channel (r : RState) (scid : ℕ) : Option Chan :=
  r.chans.find? fun c => c.scid == scid

def get_node (r : RState) (nid : ℕ) : Option NodeInfo :=
  r.nodes.find? fun n => n.nid == nid

def dedupAdjGo (prev : ℕ) : List ℕ → List ℕ
  | [] => []
  | y :: ys => if y = prev then dedupAdjGo prev ys else y :: dedupAdjGo y ys

/-- The dst/src loop of uniquify_node_ids: keep the first element of each
run of adjacent equal ids. -/
def dedupAdj : List ℕ → List ℕ
  | [] => []
  | x :: xs => x :: dedupAdjGo x xs

/-- uniquify_node_ids: asort by the total order on node ids (the
lexicographic byte order of the key, modelled by the order on naturals; on
a total order every sort yields the same list, insertion sort is used
here), then drop adjacent equals. -/
def uniquify (l : List ℕ) : List ℕ :=
  dedupAdj (List.insertionSort (· ≤ ·) l)

/-- Messages the channel loop of create_next_scid_reply emits for one
queried scid: nothing when the channel is unknown or unannounced, else its
channel_announcement followed by the channel_update of each present
half. -/
def chanEmits (r : RState) (scid : ℕ) : List GMsg :=
  match get_channel r scid with
  | some c =>
    if c.announced then
      GMsg.chanAnn scid ::
        ((if c.upd0 then [GMsg.chanUpd scid 0] else []) ++
          (if c.upd1 then [GMsg.chanUpd scid 1] else []))
    else []
  | none => []

/-- Endpoint node ids the channel loop records for one queried scid. -/
def chanNodes (r : RState) (scid : ℕ) : List ℕ :=
  match get_channel r scid with
  | some c => if c.announced then [c.node0, c.node1] else []
  | none => []

/-- The message the node loop emits for one recorded node id: its
node_announcement when the node is known and has been announced. -/
def nodeEmit (r : RState) (nid : ℕ) : List GMsg :=
  match get_node r nid with
  | some n =>
    if n.node_announcement_index ≠ 0 then [GMsg.nodeAnn nid] else []
  | none => []

/-- The channel for loop of create_next_scid_reply over the unprocessed
suffix of scid_queries (scid_query_idx is represented by the suffix it
points at): skip unknown and unannounced channels; at the first announced
one emit its messages, record its endpoints, and stop. Returns the emitted
messages, the recorded endpoint ids, the remaining suffix, and the sent
flag. -/
def scid_query_loop (r : RState) : List ℕ → List GMsg × List ℕ × List ℕ × Bool
  | [] => ([], [], [], false)
  | scid :: rest =>
    match get_channel r scid with
    | some c =>
      if c.announced then
        (GMsg.chanAnn scid ::
            ((if c.upd0 then [GMsg.chanUpd scid 0] else []) ++
              (if c.upd1 then [GMsg.chanUpd scid 1] else [])),
          [c.node0, c.node1], rest, true)
      else scid_query_loop r rest
    | none => scid_query_loop r rest

/-- The node for loop of create_next_scid_reply over the unemitted suffix
of scid_query_nodes: skip unknown and unannounced nodes; at the first
announced one emit its node_announcement and stop. Returns the emitted
message, the remaining suffix, and the sent flag. -/
def scid_query_node_loop (r : RState) : List ℕ → List GMsg × List ℕ × Bool
  | [] => ([], [], false)
  | nid :: rest =>
    match get_node r nid with
    | some n =>
      if n.node_announcement_index ≠ 0 then ([GMsg.nodeAnn nid], rest, true)
      else scid_query_node_loop r rest
    | none => scid_query_node_loop r rest

/-- create_next_scid_reply, one wake of the per-peer pump. The state is the
unprocessed suffix of scid_queries paired with scid_query_nodes viewed from
scid_query_nodes_idx (during the channel phase the node cursor is 0, so
that suffix is the whole accumulated list). The wake runs the channel loop;
exactly when that loop moves the channel cursor from before the end to the
end, uniquify_node_ids sorts and deduplicates the accumulated ids; if the
channel loop sent nothing the node loop runs; when both cursors are
exhausted the terminator with complete = true is emitted and the query
state cleared (none). -/
def create_next_scid_reply (r : RState) (scidsRem qnodes : List ℕ) :
    List GMsg × Option (List ℕ × List ℕ) :=
  let t := scid_query_loop r scidsRem
  let cm := t.1
  let newNodes := t.2.1
  let chanRest := t.2.2.1
  let sent := t.2.2.2
  let qn1 := qnodes ++ newNodes
  let qn2 := if scidsRem ≠ [] ∧ chanRest = [] then uniquify qn1 else qn1
  if sent then
    if qn2 = [] then (cm ++ [GMsg.replyEnd true], none)
    else (cm, some (chanRest, qn2))
  else
    let u := scid_query_node_loop r qn2
    let nm := u.1
    let nodeRest := u.2.1
    if nodeRest = [] then (nm ++ [GMsg.replyEnd true], none)
    else (nm, some (chanRest, nodeRest))

/-- Total emission of an installed scid query: iterate
create_next_scid_reply wakes until the query state is cleared. The fuel
bounds the number of wakes; 3 * scids + qnodes + 2 always suffices. -/
def scid_query_run (r : RState) : ℕ → List ℕ → List ℕ → List GMsg
  | 0, _, _ => []
  | fuel + 1, scidsRem, qnodes =>
    match create_next_scid_reply r scidsRem qnodes with
    | (m, none) => m
    | (m, some sq) => m ++ scid_query_run r fuel sq.1 sq.2

/-- The closed form of the whole emission of an inbound scid query:
per-scid channel messages in query order, then the node_announcements of
the sorted deduplicated accumulated endpoints, then one terminator. -/
def scidQueryReply (r : RState) (scids : List ℕ) : List GMsg :=
  scids.flatMap (chanEmits r) ++
    (uniquify (scids.flatMap (chanNodes r))).flatMap (nodeEmit r) ++
    [GMsg.replyEnd true]

/-- The scid query fields of a peer session. -/
structure PeerScids where
  scid_queries : Option (List ℕ)
  scid_query_idx : ℕ
  scid_query_nodes : Option (List ℕ)
  scid_query_nodes_idx : ℕ
deriving DecidableEq

/-- A query_short_channel_ids message as the handler sees it: whether the
frame parsed, the chain hash, and the result of decode_short_ids on the
encoded payload (none when the encoding is bad; the codec is external). -/
structure QSCIMsg where
  parseOk : Bool
  chain : ℕ
  decoded : Option (List ℕ)
deriving DecidableEq

inductive QSCIOut where
  | errorSent
  | ignored
  | installedWake
deriving DecidableEq

/-- handle_query_short_channel_ids: a bad frame gets an error; a foreign
chain is silently ignored; a previous inbound query still in flight
(scid_queries or scid_query_nodes non-null) gets an error with nothing
installed; a bad encoding gets an error; otherwise the decoded scids are
installed with channel cursor 0 and a fresh empty node accumulator and the
pump is woken. -/
def handle_query_short_channel_ids (chainHash : ℕ) (st : PeerScids)
    (m : QSCIMsg) : PeerScids × QSCIOut :=
  if m.parseOk = false then (st, QSCIOut.errorSent)
  else if m.chain ≠ chainHash then (st, QSCIOut.ignored)
  else if st.scid_queries.isSome ∨ st.scid_query_nodes.isSome then
    (st, QSCIOut.errorSent)
  else
    match m.decoded with
    | none => (st, QSCIOut.errorSent)
    | some scids =>
      ({ scid_queries := some scids
         scid_query_idx := 0
         scid_query_nodes := some ([] : List ℕ)
         scid_query_nodes_idx := st.scid_query_nodes_idx },
        QSCIOut.installedWake)

/-- A compressor that always expands by one byte: compression never
helps. -/
def zl_expand (l : List ℕ) : List ℕ := 0 :: l

/-- A compressor whose output has exactly the length of its input. -/
def zl_id (l : List ℕ) : List ℕ := l

/-- Example routing state for witnesses: channels 1 and 2 share endpoint
11; node 12 has no node_announcement; scid 3 is unknown. -/
def exR : RState :=
  ⟨[⟨1, true, true, true, 10, 11, false⟩, ⟨2, true, true, false, 11, 12, false⟩],
   [⟨10, 1⟩, ⟨11, 2⟩, ⟨12, 0⟩]⟩

/-- Example idle peer scid-query state. -/
def exPeerScids : PeerScids := ⟨none, 0, none, 0⟩

/-- Example accepted query_short_channel_ids for chain 7. -/
def exQSCIMsg : QSCIMsg := ⟨true, 7, some [1, 2, 3]⟩

theorem next_broadcast_advances {log : List BcastEntry}
    {ts_min ts_max cursor : ℕ} {e : BcastEntry} {c : ℕ}
    (h : next_broadcast log ts_min ts_max cursor = some (e, c)) :
    cursor ≤ c := by
  unfold next_broadcast at h
  cases hf : (log.find? fun e =>
      decide (cursor ≤ e.index) && decide (ts_min ≤ e.timestamp) &&
        decide (e.timestamp ≤ ts_max)) with
  | none => rw [hf] at h; cases h
  | some a =>
    rw [hf] at h
    have hp := List.find?_some hf
    simp only [Bool.and_eq_true, decide_eq_true_eq] at hp
    cases h
    omega

/-- An accepted gossip_timestamp_filter reduces to the saturating window
computation with the cursor reset. -/
theorem handle_gtf_accepted (chainHash : ℕ) (p : PeerFilter) (m : GTFMsg)
    (h1 : m.parseOk = true) (h2 : m.chain = chainHash) :
    handle_gossip_timestamp_filter chainHash p m =
      { gossip_timestamp_min := m.first_timestamp
        gossip_timestamp_max :=
          if (m.first_timestamp + m.timestamp_range + 4294967295) % 4294967296
              < m.first_timestamp then 4294967295
          else (m.first_timestamp + m.timestamp_range + 4294967295) % 4294967296
        broadcast_index := 0 } := by
  simp [handle_gossip_timestamp_filter, h1, h2]

/-- Claim C3, counterexample: an accepted gossip_timestamp_filter is an
inbound wire message that lowers broadcast_index, here from 5 to 0. -/
theorem c3_filter_resets_cursor_counterexample :
    (handle_gossip_timestamp_filter 0 ⟨0, 0, 5⟩ ⟨true, 0, 10, 5⟩).broadcast_index
      < (⟨0, 0, 5⟩ : PeerFilter).broadcast_index := by decide

/-- Claim C3, amended: after session initialisation a peer's
broadcast_index never decreases except through an accepted
gossip_timestamp_filter, which resets it to 0. For every event touching
these fields: an accepted filter (well-formed frame, matching chain) sets
the cursor to exactly 0; a rejected filter leaves the whole peer state
untouched; a wake of the broadcast pacer only ever advances the cursor. -/
theorem c3_broadcast_index_amended (chainHash : ℕ) (log : List BcastEntry)
    (p : PeerFilter) :
    (∀ m : GTFMsg,
      (m.parseOk = true ∧ m.chain = chainHash →
        (peerEventStep chainHash log (PeerEvent.timestampFilter m)
          p).broadcast_index = 0)
      ∧ (¬(m.parseOk = true ∧ m.chain = chainHash) →
        peerEventStep chainHash log (PeerEvent.timestampFilter m) p = p))
    ∧ ∀ armed : Bool,
      p.broadcast_index ≤
        (peerEventStep chainHash log (PeerEvent.gossipWake armed)
          p).broadcast_index := by
  constructor
  · intro m
    constructor
    · rintro ⟨h1, h2⟩
      simp only [peerEventStep]
      rw [handle_gtf_accepted chainHash p m h1 h2]
    · intro hrej
      simp only [peerEventStep, handle_gossip_timestamp_filter]
      by_cases hp : m.parseOk = false
      · rw [if_pos hp]
      · have hpt : m.parseOk = true := by
          revert hp
          cases m.parseOk <;> simp
        have hc : m.chain ≠ chainHash := fun hceq => hrej ⟨hpt, hceq⟩
        rw [if_neg hp, if_pos hc]
  · intro armed
    simp only [peerEventStep, maybe_queue_gossip]
    by_cases ha : armed = true
    · simp [ha]
    · simp only [Bool.not_eq_true] at ha
      subst ha
      simp only [Bool.false_eq_true, if_false]
      cases hnb : next_broadcast log p.gossip_timestamp_min
          p.gossip_timestamp_max p.broadcast_index with
      | none => simp [hnb]
      | some ec =>
        simp only [hnb]
        exact next_broadcast_advances (e := ec.1) (c := ec.2)
          (by rw [hnb])

/-- Witness for claim C3: a concrete accepted filter resets the cursor of
peer state (0, 0, 5) to 0, a foreign-chain filter leaves the peer state
untouched, and a pacer wake on the empty log does not lower the cursor. -/
theorem c3_broadcast_index_amended_witness :
    (peerEventStep 0 [] (PeerEvent.timestampFilter ⟨true, 0, 10, 5⟩)
        ⟨0, 0, 5⟩).broadcast_index = 0
    ∧ peerEventStep 0 [] (PeerEvent.timestampFilter ⟨true, 1, 10, 5⟩)
        ⟨0, 0, 5⟩ = ⟨0, 0, 5⟩
    ∧ (⟨0, 0, 5⟩ : PeerFilter).broadcast_index ≤
        (peerEventStep 0 [] (PeerEvent.gossipWake false)
          ⟨0, 0, 5⟩).broadcast_index :=
  ⟨((c3_broadcast_index_amended 0 [] ⟨0, 0, 5⟩).1 ⟨true, 0, 10, 5⟩).1
      (by decide),
   ((c3_broadcast_index_amended 0 [] ⟨0, 0, 5⟩).1 ⟨true, 1, 10, 5⟩).2
      (by decide),
   (c3_broadcast_index_amended 0 [] ⟨0, 0, 5⟩).2 false⟩

/-- Claim C4: an accepted gossip_timestamp_filter with timestamp_range at
least 1 yields ts_min = first_timestamp with ts_min at most ts_max, and
whenever first_timestamp + timestamp_range - 1 would exceed 4294967295 the
upper bound saturates to 4294967295 instead of wrapping modulo 2^32. -/
theorem c4_timestamp_filter_saturates (chainHash : ℕ) (p : PeerFilter)
    (m : GTFMsg) (h1 : m.parseOk = true) (h2 : m.chain = chainHash)
    (h3 : 1 ≤ m.timestamp_range) (h4 : m.first_timestamp ≤ 4294967295)
    (h5 : m.timestamp_range ≤ 4294967295) :
    (handle_gossip_timestamp_filter chainHash p m).gossip_timestamp_min
        = m.first_timestamp
    ∧ (handle_gossip_timestamp_filter chainHash p m).gossip_timestamp_min
        ≤ (handle_gossip_timestamp_filter chainHash p m).gossip_timestamp_max
    ∧ (4294967295 < m.first_timestamp + m.timestamp_range - 1 →
        (handle_gossip_timestamp_filter chainHash p m).gossip_timestamp_max
          = 4294967295) := by
  rw [handle_gtf_accepted chainHash p m h1 h2]
  refine ⟨rfl, ?_, ?_⟩
  · simp only
    split <;> omega
  · intro hov
    simp only
    split <;> omega

/-- Witness for claim C4 at a concrete overflowing input: first = 4000000000
and range = 600000000. -/
theorem c4_timestamp_filter_saturates_witness :
    (handle_gossip_timestamp_filter 0 ⟨0, 0, 0⟩
        ⟨true, 0, 4000000000, 600000000⟩).gossip_timestamp_min = 4000000000
    ∧ (handle_gossip_timestamp_filter 0 ⟨0, 0, 0⟩
        ⟨true, 0, 4000000000, 600000000⟩).gossip_timestamp_min
      ≤ (handle_gossip_timestamp_filter 0 ⟨0, 0, 0⟩
        ⟨true, 0, 4000000000, 600000000⟩).gossip_timestamp_max
    ∧ (4294967295 < 4000000000 + 600000000 - 1 →
        (handle_gossip_timestamp_filter 0 ⟨0, 0, 0⟩
          ⟨true, 0, 4000000000, 600000000⟩).gossip_timestamp_max
        = 4294967295) :=
  c4_timestamp_filter_saturates 0 ⟨0, 0, 0⟩ ⟨true, 0, 4000000000, 600000000⟩
    (by decide) (by decide) (by decide) (by decide) (by decide)

/-- Claim C10: an accepted gossip_timestamp_filter with timestamp_range = 0
subscribes the peer to [first_timestamp, 4294967295]; for a positive
first_timestamp the u32 computation first + 0 - 1 lands below ts_min and is
saturated up (for first_timestamp = 0 it wraps directly to 4294967295). -/
theorem c10_zero_range_filter (chainHash : ℕ) (p : PeerFilter) (m : GTFMsg)
    (h1 : m.parseOk = true) (h2 : m.chain = chainHash)
    (h3 : m.timestamp_range = 0) (h4 : m.first_timestamp ≤ 4294967295) :
    (handle_gossip_timestamp_filter chainHash p m).gossip_timestamp_min
        = m.first_timestamp
    ∧ (handle_gossip_timestamp_filter chainHash p m).gossip_timestamp_max
        = 4294967295
    ∧ (1 ≤ m.first_timestamp →
        (m.first_timestamp + m.timestamp_range + 4294967295) % 4294967296
          < m.first_timestamp) := by
  rw [handle_gtf_accepted chainHash p m h1 h2]
  refine ⟨rfl, ?_, ?_⟩
  · simp only
    split <;> omega
  · intro h0
    omega

/-- Witness for claim C10 at first_timestamp = 100, range = 0. -/
theorem c10_zero_range_filter_witness :
    (handle_gossip_timestamp_filter 0 ⟨0, 0, 0⟩
        ⟨true, 0, 100, 0⟩).gossip_timestamp_min = 100
    ∧ (handle_gossip_timestamp_filter 0 ⟨0, 0, 0⟩
        ⟨true, 0, 100, 0⟩).gossip_timestamp_max = 4294967295
    ∧ (1 ≤ 100 → (100 + 0 + 4294967295) % 4294967296 < 100) :=
  c10_zero_range_filter 0 ⟨0, 0, 0⟩ ⟨true, 0, 100, 0⟩
    (by decide) (by decide) (by decide) (by decide)

/-- Claim C6, counterexample: with the clock behind the previous
last_timestamp (clock 5, previous 10) the regenerated channel_update
carries timestamp 5, which does not exceed 10. -/
theorem c6_clock_regression_counterexample :
    update_local_channel_timestamp 5 10 true = 5
    ∧ ¬ 10 < update_local_channel_timestamp 5 10 true := by decide

/-- Claim C6, amended: for a defined half-channel the regenerated
channel_update timestamp strictly exceeds the previous last_timestamp
whenever the clock is at or past it (an equal clock is bumped by one); a
clock behind the previous timestamp is used as is. -/
theorem c6_update_timestamp_amended (now last_timestamp : ℕ)
    (h : last_timestamp ≤ now) :
    last_timestamp < update_local_channel_timestamp now last_timestamp true := by
  unfold update_local_channel_timestamp
  split
  case isTrue hc => omega
  case isFalse hc =>
    rcases Nat.lt_or_ge last_timestamp now with hlt | hge
    · exact hlt
    · exact absurd ⟨rfl, by omega⟩ hc

/-- Witness for claim C6 at clock = previous = 42: the update carries 43. -/
theorem c6_update_timestamp_amended_witness :
    42 < update_local_channel_timestamp 42 42 true :=
  c6_update_timestamp_amended 42 42 (by decide)

/-- Claim C7: a well-formed matching-chain query_short_channel_ids that
arrives while a previous inbound scid query is still in flight is answered
with an error and the peer scid-query state is left unchanged; the new
query is not installed. -/
theorem c7_concurrent_query_rejected (chainHash : ℕ) (st : PeerScids)
    (m : QSCIMsg) (h1 : m.parseOk = true) (h2 : m.chain = chainHash)
    (h3 : st.scid_queries.isSome ∨ st.scid_query_nodes.isSome) :
    handle_query_short_channel_ids chainHash st m = (st, QSCIOut.errorSent) := by
  simp [handle_query_short_channel_ids, h1, h2, h3]

/-- Witness for claim C7: a second query while [4] is still being
answered. -/
theorem c7_concurrent_query_rejected_witness :
    handle_query_short_channel_ids 7 ⟨some [4], 0, some [], 0⟩ exQSCIMsg
      = (⟨some [4], 0, some [], 0⟩, QSCIOut.errorSent) :=
  c7_concurrent_query_rejected 7 ⟨some [4], 0, some [], 0⟩ exQSCIMsg
    (by decide) (by decide) (by decide)

/-- Claim C8: after a peer session is destroyed every channel whose two
endpoints are that peer and ourselves has local_disabled = true. -/
theorem c8_destroy_peer_disables (selfId peerId : ℕ) (chans : List Chan)
    (c : Chan) (hc : c ∈ peer_disable_channels selfId peerId chans)
    (hends : (c.node0 = peerId ∧ c.node1 = selfId)
      ∨ (c.node0 = selfId ∧ c.node1 = peerId)) :
    c.local_disabled = true := by
  rcases List.mem_map.mp hc with ⟨a, _, hfa⟩
  by_cases hcond :
      (a.node0 = peerId ∨ a.node1 = peerId) ∧ other_node_id a peerId = selfId
  · rw [if_pos hcond] at hfa
    rw [← hfa]
  · rw [if_neg hcond] at hfa
    subst hfa
    exfalso
    apply hcond
    rcases hends with ⟨e0, e1⟩ | ⟨e0, e1⟩
    · exact ⟨Or.inl e0, by simp [other_node_id, e0, e1]⟩
    · refine ⟨Or.inr e1, ?_⟩
      simp only [other_node_id]
      split
      · omega
      · exact e0

/-- Witness for claim C8: destroying peer 5 disables the channel between 5
and ourselves (id 9). -/
theorem c8_destroy_peer_disables_witness :
    (Chan.mk 8 true false false 5 9 true).local_disabled = true :=
  c8_destroy_peer_disables 9 5 [⟨8, true, false, false, 5, 9, false⟩]
    ⟨8, true, false, false, 5, 9, true⟩ (by decide) (by decide)

/-- Claim C9: a control ping to a connected peer with num_pong_bytes at
least 65532 is answered on the control connection immediately and leaves
num_pings_outstanding untouched; below 65532 the counter is incremented by
exactly one and the control reply is deferred. -/
theorem c9_ping_req_outstanding (num_pong_bytes o : ℕ) :
    (65532 ≤ num_pong_bytes →
      ping_req num_pong_bytes o = (o, some (true, 0)))
    ∧ (num_pong_bytes < 65532 →
      ping_req num_pong_bytes o = (o + 1, none)) := by
  constructor
  · intro h
    simp [ping_req, h]
  · intro h
    rw [ping_req, if_neg (by omega)]

/-- Witness for claim C9 at num_pong_bytes 65532 and 500. -/
theorem c9_ping_req_outstanding_witness :
    ping_req 65532 3 = (3, some (true, 0)) ∧ ping_req 500 3 = (4, none) :=
  ⟨(c9_ping_req_outstanding 65532 3).1 (by decide),
   (c9_ping_req_outstanding 500 3).2 (by decide)⟩

theorem encode_end_of_le (zl : List ℕ → List ℕ) (body : List ℕ)
    (max_bytes : ℕ) (hz : (zl body).length ≤ body.length)
    (hm : 1 + (zl body).length ≤ max_bytes) :
    encode_short_channel_ids_end zl body max_bytes
      = some (SHORTIDS_ZLIB, zl body) := by
  unfold encode_short_channel_ids_end zencode_scids
  rw [if_pos hz]
  show (if 1 + (zl body).length ≤ max_bytes
      then some (SHORTIDS_ZLIB, zl body) else none)
    = some (SHORTIDS_ZLIB, zl body)
  exact if_pos hm

theorem encode_end_of_gt (zl : List ℕ → List ℕ) (body : List ℕ)
    (max_bytes : ℕ) (hz : ¬ (zl body).length ≤ body.length)
    (hm : 1 + body.length ≤ max_bytes) :
    encode_short_channel_ids_end zl body max_bytes
      = some (SHORTIDS_UNCOMPRESSED, body) := by
  unfold encode_short_channel_ids_end zencode_scids
  rw [if_neg hz]
  show (if 1 + body.length ≤ max_bytes
      then some (SHORTIDS_UNCOMPRESSED, body) else none)
    = some (SHORTIDS_UNCOMPRESSED, body)
  exact if_pos hm

theorem encode_end_nil_isSome (zl : List ℕ → List ℕ) :
    (encode_short_channel_ids_end zl (rawBody []) 65490).isSome := by
  by_cases hz : (zl (rawBody [])).length ≤ (rawBody []).length
  · rw [encode_end_of_le zl (rawBody []) 65490 hz
      (by simp only [rawBody, List.flatMap_nil, List.length_nil] at hz ⊢; omega)]
    rfl
  · rw [encode_end_of_gt zl (rawBody []) 65490 hz (by decide)]
    rfl

/-- Claim C5, counterexample: with a compressor whose output length equals
the body length (here on the single scid 0), the finalised tag is
SHORTIDS_ZLIB even though the compressed body is not strictly smaller than
the raw body: compress2 is given a buffer of exactly the body length, so an
output of equal length still succeeds. -/
theorem c5_equal_length_counterexample :
    encode_short_channel_ids_end zl_id (rawBody [0]) 100
        = some (SHORTIDS_ZLIB, zl_id (rawBody [0]))
    ∧ ¬ (zl_id (rawBody [0])).length < (rawBody [0]).length := by decide

/-- Claim C5, amended: under a byte limit large enough for the raw body the
finalisation always succeeds; the tag is SHORTIDS_ZLIB exactly when the
compressed body is no larger than the raw 8-byte-per-scid body (the
body-length compress2 buffer admits equality), and then the body is the
compressed one; otherwise the tag is SHORTIDS_UNCOMPRESSED and the body is
the raw encoding. Strictly smaller output still implies the ZLIB tag; only
at exactly equal length does the code keep ZLIB although the compressed
body is not strictly smaller. -/
theorem c5_encoding_tag_amended (zl : List ℕ → List ℕ) (scids : List ℕ)
    (max_bytes : ℕ) (h : 1 + (rawBody scids).length ≤ max_bytes) :
    (encode_short_channel_ids_end zl (rawBody scids) max_bytes
        = some (SHORTIDS_ZLIB, zl (rawBody scids))
      ↔ (zl (rawBody scids)).length ≤ (rawBody scids).length)
    ∧ (encode_short_channel_ids_end zl (rawBody scids) max_bytes
        = some (SHORTIDS_UNCOMPRESSED, rawBody scids)
      ↔ (rawBody scids).length < (zl (rawBody scids)).length) := by
  by_cases hz : (zl (rawBody scids)).length ≤ (rawBody scids).length
  · rw [encode_end_of_le zl (rawBody scids) max_bytes hz (by omega)]
    refine ⟨⟨fun _ => hz, fun _ => rfl⟩, ?_, ?_⟩
    · intro h2
      injection h2 with h3
      injection h3 with h4 h5
      exact absurd h4 (by decide)
    · intro h2
      omega
  · rw [encode_end_of_gt zl (rawBody scids) max_bytes hz h]
    refine ⟨⟨?_, fun h2 => absurd h2 hz⟩, fun _ => by omega, fun _ => rfl⟩
    intro h2
    injection h2 with h3
    injection h3 with h4 h5
    exact absurd h4 (by decide)

/-- Witness for claim C5 with the expanding compressor on scids [0, 1]. -/
theorem c5_encoding_tag_amended_witness :
    (encode_short_channel_ids_end zl_expand (rawBody [0, 1]) 100
        = some (SHORTIDS_ZLIB, zl_expand (rawBody [0, 1]))
      ↔ (zl_expand (rawBody [0, 1])).length ≤ (rawBody [0, 1]).length)
    ∧ (encode_short_channel_ids_end zl_expand (rawBody [0, 1]) 100
        = some (SHORTIDS_UNCOMPRESSED, rawBody [0, 1])
      ↔ (rawBody [0, 1]).length < (zl_expand (rawBody [0, 1])).length) :=
  c5_encoding_tag_amended zl_expand [0, 1] 100 (by decide)

theorem sorted_dropWhile_lt (c : ℕ) :
    ∀ l : List ℕ, List.Sorted (· ≤ ·) l →
      l.dropWhile (fun e => decide (e < c)) = l.filter fun e => decide (c ≤ e)
  | [], _ => rfl
  | x :: xs, h => by
    rcases List.sorted_cons.mp h with ⟨hall, hs⟩
    by_cases hx : x < c
    · rw [List.dropWhile_cons, if_pos (by simpa using hx), List.filter_cons,
        if_neg (by simp; omega)]
      exact sorted_dropWhile_lt c xs hs
    · rw [List.dropWhile_cons, if_neg (by simpa using hx), List.filter_cons,
        if_pos (by simp; omega)]
      congr 1
      symm
      rw [List.filter_eq_self]
      intro a ha
      have h2 := hall a ha
      simp only [decide_eq_true_eq]
      omega

theorem sorted_takeWhile_block (bound : ℕ) :
    ∀ l : List ℕ, List.Sorted (· ≤ ·) l →
      l.takeWhile (fun e => decide (blocknum e < bound))
        = l.filter fun e => decide (blocknum e < bound)
  | [], _ => rfl
  | x :: xs, h => by
    rcases List.sorted_cons.mp h with ⟨hall, hs⟩
    by_cases hx : blocknum x < bound
    · rw [List.takeWhile_cons, if_pos (by simpa using hx), List.filter_cons,
        if_pos (by simpa using hx)]
      rw [sorted_takeWhile_block bound xs hs]
    · rw [List.takeWhile_cons, if_neg (by simpa using hx), List.filter_cons,
        if_neg (by simpa using hx)]
      symm
      rw [List.filter_eq_nil_iff]
      intro a ha
      have h2 := hall a ha
      have h3 : blocknum x ≤ blocknum a := Nat.div_le_div_right h2
      simp only [decide_eq_true_eq]
      omega

theorem mem_collectScids {chanmap : List ℕ}
    (hs : List.Sorted (· ≤ ·) chanmap) (first num x : ℕ) :
    x ∈ collectScids chanmap first num
      ↔ x ∈ chanmap ∧ (if first = 0 then 1 else first) ≤ blocknum x
        ∧ blocknum x < first + num := by
  unfold collectScids
  rw [sorted_dropWhile_lt _ _ hs,
    sorted_takeWhile_block _ _ (hs.sublist (List.filter_sublist _))]
  simp only [List.mem_filter, decide_eq_true_eq]
  have hk : (0 : ℕ) < 2 ^ 40 := by norm_num
  constructor
  · rintro ⟨⟨hx, hge⟩, hlt⟩
    refine ⟨hx, ?_, hlt⟩
    exact (Nat.le_div_iff_mul_le hk).mpr (by omega)
  · rintro ⟨hx, hge, hlt⟩
    refine ⟨⟨hx, ?_⟩, hlt⟩
    have := (Nat.le_div_iff_mul_le hk).mp hge
    omega

theorem collectScids_num_zero {chanmap : List ℕ}
    (hs : List.Sorted (· ≤ ·) chanmap) (first : ℕ) :
    collectScids chanmap first 0 = [] := by
  rw [List.eq_nil_iff_forall_not_mem]
  intro a ha
  rw [mem_collectScids hs] at ha
  rcases ha with ⟨-, hge, hlt⟩
  by_cases h0 : first = 0
  · rw [if_pos h0] at hge; omega
  · rw [if_neg h0] at hge; omega

theorem queue_channel_ranges_union (zl : List ℕ → List ℕ)
    (chanmap : List ℕ) (hs : List.Sorted (· ≤ ·) chanmap)
    (hfit : ∀ f, (encode_short_channel_ids_end zl
        (rawBody (collectScids chanmap f 1)) 65490).isSome) :
    ∀ fuel first num, num + 1 ≤ fuel → ∀ x,
      x ∈ unionScids (queue_channel_ranges zl chanmap fuel first num)
        ↔ x ∈ chanmap ∧ (if first = 0 then 1 else first) ≤ blocknum x
          ∧ blocknum x < first + num := by
  intro fuel
  induction fuel with
  | zero => intro first num h; exact absurd h (by omega)
  | succ f ih =>
    intro first num hfuel x
    rw [queue_channel_ranges]
    cases he : encode_short_channel_ids_end zl
        (rawBody (collectScids chanmap first num)) 65490 with
    | some t =>
      simp only [unionScids, List.flatMap_cons, List.flatMap_nil,
        List.append_nil]
      exact mem_collectScids hs first num x
    | none =>
      by_cases hn : num ≤ 1
      · exfalso
        rcases Nat.le_one_iff_eq_zero_or_eq_one.mp hn with h0 | h1
        · subst h0
          rw [collectScids_num_zero hs] at he
          have h2 := encode_end_nil_isSome zl
          rw [he] at h2
          cases h2
        · subst h1
          have h2 := hfit first
          rw [he] at h2
          cases h2
      · rw [if_neg hn]
        have hsplit : unionScids
            (queue_channel_ranges zl chanmap f first (num / 2) ++
              queue_channel_ranges zl chanmap f (first + num / 2)
                (num - num / 2))
            = unionScids (queue_channel_ranges zl chanmap f first (num / 2)) ++
              unionScids (queue_channel_ranges zl chanmap f (first + num / 2)
                (num - num / 2)) := by
          simp [unionScids]
        rw [hsplit, List.mem_append,
          ih first (num / 2) (by omega) x,
          ih (first + num / 2) (num - num / 2) (by omega) x,
          if_neg (show ¬ first + num / 2 = 0 by omega), ← and_or_left]
        refine and_congr_right fun _ => ?_
        by_cases hf0 : first = 0
        · simp only [hf0, reduceIte]
          omega
        · simp only [if_neg hf0]
          omega

/-- Claim C2, counterexample: with channel map [5] (an scid in block 0),
the accepted query_channel_range(first = 0, num = 1) emits one reply whose
scid set is empty, although scid 5 lies in the queried window 0 <= block <
1: the walk starts at block 1 when first = 0, so block-0 scids are never
returned. -/
theorem c2_block_zero_counterexample :
    handle_query_channel_range zl_expand 0 [5] 0 0 1 = some [(0, 1, [])]
    ∧ (5 : ℕ) ∈ [(5 : ℕ)] ∧ blocknum 5 = 0 ∧ (0 : ℕ) ≤ blocknum 5
    ∧ blocknum 5 < 0 + 1
    ∧ (5 : ℕ) ∉ unionScids [(0, 1, ([] : List ℕ))] := by decide

/-- Claim C2, amended: for an accepted query_channel_range over an
ascending channel map, provided every single-block window fits the 65490
byte budget (so no subrange is abandoned), the scids carried across all
emitted reply_channel_range messages are exactly the channels with
max(first, 1) <= block(scid) < first + num: the walk never starts below
block 1, so block-0 scids are excluded even when first = 0. -/
theorem c2_channel_range_union_amended (zl : List ℕ → List ℕ)
    (chainHash : ℕ) (chanmap : List ℕ) (chain first num : ℕ)
    (replies : List (ℕ × ℕ × List ℕ))
    (hs : List.Sorted (· ≤ ·) chanmap)
    (hfit : ∀ f, (encode_short_channel_ids_end zl
        (rawBody (collectScids chanmap f 1)) 65490).isSome)
    (hacc : handle_query_channel_range zl chainHash chanmap chain first num
        = some replies) :
    ∀ x, x ∈ unionScids replies
      ↔ x ∈ chanmap ∧ (if first = 0 then 1 else first) ≤ blocknum x
        ∧ blocknum x < first + num := by
  unfold handle_query_channel_range at hacc
  by_cases h1 : chain ≠ chainHash
  · rw [if_pos h1] at hacc; cases hacc
  · rw [if_neg h1] at hacc
    by_cases h2 : (first + num) % 4294967296 < first
    · rw [if_pos h2] at hacc; cases hacc
    · rw [if_neg h2] at hacc
      injection hacc with hrep
      subst hrep
      exact fun x =>
        queue_channel_ranges_union zl chanmap hs hfit (num + 1) first num
          (by omega) x

/-- Witness for claim C2 on the empty channel map with window 3 + 4,
evaluated at scid 7. -/
theorem c2_channel_range_union_amended_witness :
    (7 : ℕ) ∈ unionScids [((3 : ℕ), (4 : ℕ), ([] : List ℕ))]
      ↔ (7 : ℕ) ∈ ([] : List ℕ) ∧ (if (3 : ℕ) = 0 then 1 else 3) ≤ blocknum 7
        ∧ blocknum 7 < 3 + 4 :=
  c2_channel_range_union_amended zl_expand 0 [] 0 3 4 [(3, 4, [])]
    (by simp) (fun f => encode_end_nil_isSome zl_expand) (by decide) 7

theorem mem_dedupAdjGo (x : ℕ) :
    ∀ (ys : List ℕ) (prev : ℕ),
      (x ∈ dedupAdjGo prev ys ∨ x = prev) ↔ (x ∈ ys ∨ x = prev)
  | [], prev => by simp [dedupAdjGo]
  | y :: ys, prev => by
    by_cases hy : y = prev
    · rw [dedupAdjGo, if_pos hy]
      subst hy
      have hih := mem_dedupAdjGo x ys y
      simp only [List.mem_cons] at *
      tauto
    · rw [dedupAdjGo, if_neg hy]
      have hih := mem_dedupAdjGo x ys y
      simp only [List.mem_cons] at *
      tauto

theorem mem_dedupAdj (x : ℕ) : ∀ l : List ℕ, x ∈ dedupAdj l ↔ x ∈ l
  | [] => Iff.rfl
  | y :: ys => by
    rw [dedupAdj]
    have hih := mem_dedupAdjGo x ys y
    simp only [List.mem_cons] at *
    tauto

theorem mem_uniquify (x : ℕ) (l : List ℕ) : x ∈ uniquify l ↔ x ∈ l := by
  rw [uniquify, mem_dedupAdj]
  exact (List.perm_insertionSort (· ≤ ·) l).mem_iff

theorem sorted_dedupAdjGo :
    ∀ (ys : List ℕ) (prev : ℕ), List.Sorted (· ≤ ·) (prev :: ys) →
      List.Sorted (· < ·) (dedupAdjGo prev ys)
      ∧ ∀ z ∈ dedupAdjGo prev ys, prev < z
  | [], _ => fun _ => ⟨List.sorted_nil, by simp [dedupAdjGo]⟩
  | y :: ys, prev => fun h => by
    rcases List.sorted_cons.mp h with ⟨hall, hs⟩
    by_cases hy : y = prev
    · rw [dedupAdjGo, if_pos hy]
      apply sorted_dedupAdjGo ys prev
      subst hy
      exact hs
    · rw [dedupAdjGo, if_neg hy]
      have hpy : prev < y :=
        lt_of_le_of_ne (hall y (List.mem_cons_self y ys)) (Ne.symm hy)
      obtain ⟨h1, h2⟩ := sorted_dedupAdjGo ys y hs
      refine ⟨List.sorted_cons.mpr ⟨h2, h1⟩, ?_⟩
      intro z hz
      rcases List.mem_cons.mp hz with h3 | h3
      · rw [h3]; exact hpy
      · exact lt_trans hpy (h2 z h3)

theorem sorted_lt_dedupAdj :
    ∀ l : List ℕ, List.Sorted (· ≤ ·) l → List.Sorted (· < ·) (dedupAdj l)
  | [], _ => List.sorted_nil
  | x :: xs, h => by
    rw [dedupAdj]
    obtain ⟨h1, h2⟩ := sorted_dedupAdjGo xs x h
    exact List.sorted_cons.mpr ⟨h2, h1⟩

theorem sorted_lt_uniquify (l : List ℕ) : List.Sorted (· < ·) (uniquify l) :=
  sorted_lt_dedupAdj _ (List.sorted_insertionSort (· ≤ ·) l)

theorem sorted_le_uniquify (l : List ℕ) : List.Sorted (· ≤ ·) (uniquify l) :=
  (sorted_lt_uniquify l).imp fun h => le_of_lt h

theorem nodup_uniquify (l : List ℕ) : (uniquify l).Nodup :=
  (sorted_lt_uniquify l).imp fun h => ne_of_lt h

theorem length_dedupAdjGo :
    ∀ (ys : List ℕ) (prev : ℕ), (dedupAdjGo prev ys).length ≤ ys.length
  | [], _ => Nat.le_refl 0
  | y :: ys, prev => by
    rw [dedupAdjGo]
    split
    · exact Nat.le_trans (length_dedupAdjGo ys prev) (Nat.le_succ _)
    · simp only [List.length_cons]
      exact Nat.succ_le_succ (length_dedupAdjGo ys y)

theorem length_uniquify (l : List ℕ) : (uniquify l).length ≤ l.length := by
  rw [uniquify]
  have hperm := (List.perm_insertionSort (· ≤ ·) l).length_eq
  cases hsort : List.insertionSort (· ≤ ·) l with
  | nil => simp [dedupAdj]
  | cons a as =>
    rw [dedupAdj]
    rw [hsort] at hperm
    simp only [List.length_cons] at *
    have := length_dedupAdjGo as a
    omega

theorem uniquify_ne_nil {l : List ℕ} (h : l ≠ []) : uniquify l ≠ [] := by
  rw [uniquify]
  have hperm := (List.perm_insertionSort (· ≤ ·) l).length_eq
  cases hsort : List.insertionSort (· ≤ ·) l with
  | nil =>
    rw [hsort] at hperm
    simp only [List.length_nil] at hperm
    exact absurd (List.length_eq_zero.mp hperm.symm) h
  | cons a as => simp [dedupAdj]

theorem scid_query_loop_spec (r : RState) :
    ∀ s : List ℕ,
      (scid_query_loop r s = ([], [], [], false)
        ∧ s.flatMap (chanEmits r) = [] ∧ s.flatMap (chanNodes r) = [])
      ∨ (∃ cm nn rest, scid_query_loop r s = (cm, nn, rest, true)
        ∧ s.flatMap (chanEmits r) = cm ++ rest.flatMap (chanEmits r)
        ∧ s.flatMap (chanNodes r) = nn ++ rest.flatMap (chanNodes r)
        ∧ rest.length < s.length ∧ nn.length = 2)
  | [] => Or.inl ⟨rfl, rfl, rfl⟩
  | scid :: rest0 => by
    cases hg : get_channel r scid with
    | none =>
      have hce : chanEmits r scid = [] := by simp [chanEmits, hg]
      have hcn : chanNodes r scid = [] := by simp [chanNodes, hg]
      have hloop : scid_query_loop r (scid :: rest0)
          = scid_query_loop r rest0 := by
        simp [scid_query_loop, hg]
      rcases scid_query_loop_spec r rest0 with ⟨h1, h2, h3⟩ |
        ⟨cm, nn, rest, h1, h2, h3, h4, h5⟩
      · exact Or.inl ⟨by rw [hloop, h1],
          by simp [List.flatMap_cons, hce, h2],
          by simp [List.flatMap_cons, hcn, h3]⟩
      · refine Or.inr ⟨cm, nn, rest, by rw [hloop, h1],
          by simp [List.flatMap_cons, hce, h2],
          by simp [List.flatMap_cons, hcn, h3], ?_, h5⟩
        simp only [List.length_cons]
        omega
    | some c =>
      by_cases ha : c.announced = true
      · refine Or.inr ⟨chanEmits r scid, [c.node0, c.node1], rest0,
          ?_, ?_, ?_, ?_, rfl⟩
        · simp [scid_query_loop, hg, ha, chanEmits]
        · simp [List.flatMap_cons]
        · simp [List.flatMap_cons, chanNodes, hg, ha]
        · simp
      · have hce : chanEmits r scid = [] := by simp [chanEmits, hg, ha]
        have hcn : chanNodes r scid = [] := by simp [chanNodes, hg, ha]
        have hloop : scid_query_loop r (scid :: rest0)
            = scid_query_loop r rest0 := by
          simp [scid_query_loop, hg, ha]
        rcases scid_query_loop_spec r rest0 with ⟨h1, h2, h3⟩ |
          ⟨cm, nn, rest, h1, h2, h3, h4, h5⟩
        · exact Or.inl ⟨by rw [hloop, h1],
            by simp [List.flatMap_cons, hce, h2],
            by simp [List.flatMap_cons, hcn, h3]⟩
        · refine Or.inr ⟨cm, nn, rest, by rw [hloop, h1],
            by simp [List.flatMap_cons, hce, h2],
            by simp [List.flatMap_cons, hcn, h3], ?_, h5⟩
          simp only [List.length_cons]
          omega

theorem scid_query_node_loop_spec (r : RState) :
    ∀ q : List ℕ, ∃ nm rest sent,
      scid_query_node_loop r q = (nm, rest, sent)
      ∧ q.flatMap (nodeEmit r) = nm ++ rest.flatMap (nodeEmit r)
      ∧ rest.length ≤ q.length ∧ (q ≠ [] → rest.length < q.length)
  | [] => ⟨[], [], false, rfl, rfl, Nat.le_refl 0, fun h => absurd rfl h⟩
  | nid :: rest0 => by
    cases hg : get_node r nid with
    | none =>
      obtain ⟨nm, rest, sent, h1, h2, h3, h4⟩ := scid_query_node_loop_spec r rest0
      refine ⟨nm, rest, sent, ?_, ?_, ?_, ?_⟩
      · simp only [scid_query_node_loop, hg]
        exact h1
      · simp [List.flatMap_cons, nodeEmit, hg, h2]
      · simp only [List.length_cons]
        omega
      · intro
        simp only [List.length_cons]
        omega
    | some n =>
      by_cases hi : n.node_announcement_index ≠ 0
      · refine ⟨[GMsg.nodeAnn nid], rest0, true, ?_, ?_, ?_, ?_⟩
        · simp [scid_query_node_loop, hg, hi]
        · simp [List.flatMap_cons, nodeEmit, hg, hi]
        · simp
        · intro
          simp
      · obtain ⟨nm, rest, sent, h1, h2, h3, h4⟩ :=
          scid_query_node_loop_spec r rest0
        refine ⟨nm, rest, sent, ?_, ?_, ?_, ?_⟩
        · simp only [scid_query_node_loop, hg, if_neg hi]
          exact h1
        · simp [List.flatMap_cons, nodeEmit, hg, hi, h2]
        · simp only [List.length_cons]
          omega
        · intro
          simp only [List.length_cons]
          omega

theorem scid_query_run_node_phase (r : RState) :
    ∀ fuel q, q.length + 1 ≤ fuel →
      scid_query_run r fuel [] q
        = q.flatMap (nodeEmit r) ++ [GMsg.replyEnd true] := by
  intro fuel
  induction fuel with
  | zero => intro q h; exact absurd h (by omega)
  | succ f ih =>
    intro q hq
    obtain ⟨nm, rest, sent, h1, h2, h3, h4⟩ := scid_query_node_loop_spec r q
    have hstep : create_next_scid_reply r [] q
        = (if rest = [] then (nm ++ [GMsg.replyEnd true], none)
           else (nm, some (([] : List ℕ), rest))) := by
      simp only [create_next_scid_reply, scid_query_loop, List.append_nil,
        ne_eq, not_true_eq_false, false_and, if_false, h1,
        Bool.false_eq_true]
    rw [scid_query_run, hstep]
    by_cases hr : rest = []
    · rw [if_pos hr]
      subst hr
      simp only [List.flatMap_nil, List.append_nil] at h2
      show nm ++ [GMsg.replyEnd true] = _
      rw [h2]
    · rw [if_neg hr]
      show nm ++ scid_query_run r f [] rest = _
      have hqne : q ≠ [] := by
        intro hqq
        subst hqq
        rw [scid_query_node_loop] at h1
        injection h1 with h1a h1b
        injection h1b with h1c h1d
        exact hr h1c.symm
      have hlt := h4 hqne
      rw [ih rest (by omega), h2, List.append_assoc]

theorem scid_query_run_chan_phase (r : RState) :
    ∀ fuel s acc, 3 * s.length + acc.length + 2 ≤ fuel → (s = [] → acc = []) →
      scid_query_run r fuel s acc
        = s.flatMap (chanEmits r) ++
            (uniquify (acc ++ s.flatMap (chanNodes r))).flatMap (nodeEmit r) ++
            [GMsg.replyEnd true] := by
  intro fuel
  induction fuel with
  | zero => intro s acc h _; exact absurd h (by omega)
  | succ f ih =>
    intro s acc hfuel hsa
    rcases scid_query_loop_spec r s with ⟨hloop, hbe, hbn⟩ |
      ⟨cm, nn, rest, hloop, hbe, hbn, hlen, hnn⟩
    · by_cases hs : s = []
      · have ha : acc = [] := hsa hs
        subst hs
        subst ha
        have hstep : create_next_scid_reply r ([] : List ℕ) ([] : List ℕ)
            = ([GMsg.replyEnd true], none) := by
          simp [create_next_scid_reply, scid_query_loop, scid_query_node_loop]
        rw [scid_query_run, hstep]
        show [GMsg.replyEnd true] = _
        simp [uniquify, dedupAdj]
      · obtain ⟨nm, nrest, nsent, hnl, hnd, hnle, hnlt⟩ :=
          scid_query_node_loop_spec r (uniquify acc)
        have hstep : create_next_scid_reply r s acc
            = (if nrest = [] then (nm ++ [GMsg.replyEnd true], none)
               else (nm, some (([] : List ℕ), nrest))) := by
          simp [create_next_scid_reply, hloop, hs, hnl]
        rw [scid_query_run, hstep]
        have hs1 : 1 ≤ s.length := by
          cases s with
          | nil => exact absurd rfl hs
          | cons a as => simp
        by_cases hnr : nrest = []
        · rw [if_pos hnr]
          subst hnr
          simp only [List.flatMap_nil, List.append_nil] at hnd
          show nm ++ [GMsg.replyEnd true] = _
          rw [hbe, hbn, List.append_nil, hnd, List.nil_append]
        · rw [if_neg hnr]
          show nm ++ scid_query_run r f [] nrest = _
          have hune : uniquify acc ≠ [] := by
            intro hu
            rw [hu, scid_query_node_loop] at hnl
            injection hnl with h1a h1b
            injection h1b with h1c h1d
            exact hnr h1c.symm
          have hlb : nrest.length < (uniquify acc).length := hnlt hune
          have hlu : (uniquify acc).length ≤ acc.length := length_uniquify acc
          rw [scid_query_run_node_phase r f nrest (by omega)]
          rw [hbe, hbn, List.append_nil, hnd, List.nil_append,
            List.append_assoc]
    · have hsne : s ≠ [] := by
        intro hx
        subst hx
        simp at hlen
      have hs1 : 1 ≤ s.length := by
        cases s with
        | nil => exact absurd rfl hsne
        | cons a as => simp
      have hnnne : acc ++ nn ≠ [] := by
        intro hx
        rcases List.append_eq_nil.mp hx with ⟨-, hn2⟩
        rw [hn2] at hnn
        simp at hnn
      by_cases hr : rest = []
      · have hstep : create_next_scid_reply r s acc
            = (cm, some (rest, uniquify (acc ++ nn))) := by
          simp [create_next_scid_reply, hloop, hsne, hr,
            uniquify_ne_nil hnnne]
        rw [scid_query_run, hstep]
        show cm ++ scid_query_run r f rest (uniquify (acc ++ nn)) = _
        subst hr
        have hlu : (uniquify (acc ++ nn)).length ≤ acc.length + 2 := by
          have h5 := length_uniquify (acc ++ nn)
          rw [List.length_append, hnn] at h5
          exact h5
        rw [scid_query_run_node_phase r f (uniquify (acc ++ nn)) (by omega)]
        simp only [List.flatMap_nil, List.append_nil] at hbe hbn
        rw [hbe, hbn]
        simp [List.append_assoc]
      · have hstep : create_next_scid_reply r s acc
            = (cm, some (rest, acc ++ nn)) := by
          simp [create_next_scid_reply, hloop, hr, hnnne]
        rw [scid_query_run, hstep]
        show cm ++ scid_query_run r f rest (acc ++ nn) = _
        have hr1 : 3 * rest.length + (acc ++ nn).length + 2 ≤ f := by
          rw [List.length_append, hnn]
          omega
        rw [ih rest (acc ++ nn) hr1 fun hx => absurd hx hr]
        rw [hbe, hbn]
        simp [List.append_assoc]

/-- Claim C1: for every accepted inbound query_short_channel_ids, the
query is installed with channel cursor 0 and empty node accumulator, and
the complete emission of the query pump is exactly: for each queried scid
in query order whose channel is known and announced, its
channel_announcement followed by each present half channel_update; then the
node_announcements of the accumulated endpoint ids in sorted deduplicated
order (each emitted only when that node has been announced); then exactly
one reply_short_channel_ids_end(complete = true); and nothing else. The
deduplicated list is sorted, has no duplicates, and carries exactly the
accumulated endpoints. -/
theorem c1_scid_query_emission (chainHash : ℕ) (st : PeerScids) (m : QSCIMsg)
    (r : RState) (scids : List ℕ) (fuel : ℕ)
    (hacc : (handle_query_short_channel_ids chainHash st m).2
      = QSCIOut.installedWake)
    (hscids : (handle_query_short_channel_ids chainHash st m).1.scid_queries
      = some scids)
    (hfuel : 3 * scids.length + 2 ≤ fuel) :
    m.decoded = some scids
    ∧ (handle_query_short_channel_ids chainHash st m).1.scid_query_idx = 0
    ∧ (handle_query_short_channel_ids chainHash st m).1.scid_query_nodes
        = some []
    ∧ scid_query_run r fuel scids [] = scidQueryReply r scids
    ∧ List.Sorted (· ≤ ·) (uniquify (scids.flatMap (chanNodes r)))
    ∧ (uniquify (scids.flatMap (chanNodes r))).Nodup
    ∧ ∀ x, x ∈ uniquify (scids.flatMap (chanNodes r))
        ↔ x ∈ scids.flatMap (chanNodes r) := by
  have hinst : m.decoded = some scids
      ∧ (handle_query_short_channel_ids chainHash st m).1.scid_query_idx = 0
      ∧ (handle_query_short_channel_ids chainHash st m).1.scid_query_nodes
        = some [] := by
    unfold handle_query_short_channel_ids at hacc hscids ⊢
    by_cases h1 : m.parseOk = false
    · rw [if_pos h1] at hacc
      simp at hacc
    · rw [if_neg h1] at hacc hscids ⊢
      by_cases h2 : m.chain ≠ chainHash
      · rw [if_pos h2] at hacc
        simp at hacc
      · rw [if_neg h2] at hacc hscids ⊢
        by_cases h3 : st.scid_queries.isSome ∨ st.scid_query_nodes.isSome
        · rw [if_pos h3] at hacc
          simp at hacc
        · rw [if_neg h3] at hacc hscids ⊢
          cases hd : m.decoded with
          | none =>
            rw [hd] at hacc
            simp at hacc
          | some scids2 =>
            rw [hd] at hscids
            simp only [Option.some.injEq] at hscids
            subst hscids
            exact ⟨rfl, rfl, rfl⟩
  have hrun := scid_query_run_chan_phase r fuel scids []
    (by simpa using hfuel) (fun _ => rfl)
  refine ⟨hinst.1, hinst.2.1, hinst.2.2, ?_, sorted_le_uniquify _,
    nodup_uniquify _, fun x => mem_uniquify x _⟩
  rw [hrun, scidQueryReply, List.nil_append]

/-- Witness for claim C1: query [1, 2, 3] against the example graph, with
channels 1 and 2 announced and sharing endpoint 11, node 12 unannounced and
scid 3 unknown. -/
theorem c1_scid_query_emission_witness :
    exQSCIMsg.decoded = some [1, 2, 3]
    ∧ (handle_query_short_channel_ids 7 exPeerScids exQSCIMsg).1.scid_query_idx = 0
    ∧ (handle_query_short_channel_ids 7 exPeerScids exQSCIMsg).1.scid_query_nodes
        = some []
    ∧ scid_query_run exR 20 [1, 2, 3] [] = scidQueryReply exR [1, 2, 3]
    ∧ List.Sorted (· ≤ ·)
        (uniquify (([1, 2, 3] : List ℕ).flatMap (chanNodes exR)))
    ∧ (uniquify (([1, 2, 3] : List ℕ).flatMap (chanNodes exR))).Nodup
    ∧ ∀ x, x ∈ uniquify (([1, 2, 3] : List ℕ).flatMap (chanNodes exR))
        ↔ x ∈ ([1, 2, 3] : List ℕ).flatMap (chanNodes exR) :=
  c1_scid_query_emission 7 exPeerScids exQSCIMsg exR [1, 2, 3] 20
    (by decide) (by decide) (by decide)

end Gossipd
